import Mathlib

/-!
Verification of the wire-label layout engine of `label_generator.py`
(class `WireLabelGenerator`).

Shallow-embedding conventions used throughout this file:

* physical dimensions (millimetres) and font metrics are rationals (`ℚ`);
  the Python float arithmetic of the source is modelled exactly at the
  rational level;
* Python `int(x)` (truncation toward zero) is `pyTrunc`;
* drawing is modelled by recording, for every text line the source hands to
  the PDF backend, the coordinates of the corresponding `pdf.text` call;
* the text-measurement callback `pdf.get_string_width` is abstracted as a
  function `measure : ℕ → ℚ` from candidate font size to measured width
  (the text and font are fixed during one sizing computation).
-/

namespace WireLabel

/-- Python `int(q)` applied to a float quotient: truncation toward zero,
as in `int(available_height / label_spacing_vertical_mm)` in the source. -/
def pyTrunc (q : ℚ) : ℤ := if 0 ≤ q then ⌊q⌋ else -⌊-q⌋

/-- `label_generator.py` lines 278-283 (`generate_bulk_labels_grouped`):

    sequential_labels = []
    for wire_id, quantity in wire_id_quantities:
        sequential_labels.extend([wire_id] * quantity)

The spec names this operation `expand`. -/
def expand (pairs : List (String × ℕ)) : List String :=
  pairs.foldl (fun acc p => acc ++ List.replicate p.2 p.1) []

theorem foldl_append_eq_flatten (f : String × ℕ → List String) :
    ∀ (pairs : List (String × ℕ)) (acc : List String),
      pairs.foldl (fun a p => a ++ f p) acc = acc ++ (pairs.map f).flatten := by
  intro pairs
  induction pairs with
  | nil => intro acc; simp
  | cons p rest ih => intro acc; simp [ih]

theorem expand_eq_flatten (pairs : List (String × ℕ)) :
    expand pairs = (pairs.map fun p => List.replicate p.2 p.1).flatten := by
  simpa using foldl_append_eq_flatten (fun p => List.replicate p.2 p.1) pairs []

/-- Claim C1: quantity expansion is correct.  For every list of
(identifier, quantity) pairs with quantities ≥ 1, the flattened sequence has
length equal to the sum of the quantities, it is exactly the concatenation of
one contiguous run per pair taken in input order, and the run of the `k`-th
pair sits between the expansion of the earlier pairs and that of the later
pairs. -/
theorem expand_spec (pairs : List (String × ℕ)) (hq : ∀ p ∈ pairs, 1 ≤ p.2) :
    (expand pairs).length = (pairs.map Prod.snd).sum ∧
    expand pairs = (pairs.map fun p => List.replicate p.2 p.1).flatten ∧
    ∀ k (hk : k < pairs.length),
      expand pairs =
        expand (pairs.take k) ++
          List.replicate (pairs.get ⟨k, hk⟩).2 (pairs.get ⟨k, hk⟩).1 ++
            expand (pairs.drop (k + 1)) := by
  refine ⟨?_, expand_eq_flatten pairs, ?_⟩
  · rw [expand_eq_flatten, List.length_flatten, List.map_map]
    congr 1
    simp [Function.comp_def]
  · intro k hk
    have hsplit : pairs =
        pairs.take k ++ pairs.get ⟨k, hk⟩ :: pairs.drop (k + 1) := by
      conv_lhs => rw [← List.take_append_drop k pairs]
      congr 1
      simpa using List.drop_eq_getElem_cons hk
    rw [expand_eq_flatten, expand_eq_flatten, expand_eq_flatten]
    conv_lhs => rw [hsplit]
    rw [List.map_append, List.map_cons, List.flatten_append, List.flatten_cons,
      List.append_assoc]

/-- Witness for C1 at the spec's worked example
`[("A",1),("B",3),("C",2)] ↦ ["A","B","B","B","C","C"]`. -/
theorem expand_spec_witness :
    (expand [("A", 1), ("B", 3), ("C", 2)]).length = 6 ∧
    expand [("A", 1), ("B", 3), ("C", 2)] = ["A", "B", "B", "B", "C", "C"] := by
  constructor
  · have h := (expand_spec [("A", 1), ("B", 3), ("C", 2)] (by decide)).1
    simpa using h
  · rfl

/-- `label_generator.py` lines 306-337 (`generate_bulk_labels_grouped`, SATO
thermal branch): each iteration of the `while` loop opens one page and the
inner `for col in range(labels_per_row)` loop places the next
`labels_per_row` remaining labels on it (fewer on the final page).  The
source loop never terminates when `labels_per_row = 0`; the model returns
`[]` there, and every theorem about it assumes `1 ≤ k`, which is the spec's
own invariant for `labelsPerRow`. -/
def satoPaginate {α : Type} (k : ℕ) : List α → List (List α)
  | [] => []
  | a :: rest =>
    if h : k = 0 then []
    else (a :: rest).take k :: satoPaginate k ((a :: rest).drop k)
  termination_by l => l.length
  decreasing_by
    simp only [List.length_drop, List.length_cons]
    omega

theorem satoPaginate_nil {α : Type} (k : ℕ) :
    satoPaginate k ([] : List α) = [] := by
  simp [satoPaginate]

theorem satoPaginate_cons {α : Type} {k : ℕ} (hk : k ≠ 0) (a : α) (rest : List α) :
    satoPaginate k (a :: rest) =
      (a :: rest).take k :: satoPaginate k ((a :: rest).drop k) := by
  rw [satoPaginate]
  simp [hk]

theorem satoPaginate_ne_nil {α : Type} {k : ℕ} (hk : k ≠ 0) (a : α) (rest : List α) :
    satoPaginate k (a :: rest) ≠ [] := by
  rw [satoPaginate_cons hk]
  simp

theorem satoPaginate_flatten_aux {α : Type} {k : ℕ} (hk : k ≠ 0) :
    ∀ (n : ℕ) (l : List α), l.length ≤ n → (satoPaginate k l).flatten = l := by
  intro n
  induction n with
  | zero =>
    intro l hl
    obtain rfl : l = [] := List.eq_nil_of_length_eq_zero (Nat.le_zero.mp hl)
    simp [satoPaginate_nil]
  | succ n ih =>
    intro l hl
    match l with
    | [] => simp [satoPaginate_nil]
    | a :: rest =>
      rw [satoPaginate_cons hk]
      have hd : ((a :: rest).drop k).length ≤ n := by
        simp only [List.length_drop, List.length_cons]
        simp only [List.length_cons] at hl
        omega
      rw [List.flatten_cons, ih _ hd, List.take_append_drop]

theorem satoPaginate_sizes_aux {α : Type} {k : ℕ} (hk : k ≠ 0) :
    ∀ (n : ℕ) (l : List α), l.length ≤ n →
      ∀ p ∈ satoPaginate k l, p.length ≤ k ∧ p ≠ [] := by
  intro n
  induction n with
  | zero =>
    intro l hl
    obtain rfl : l = [] := List.eq_nil_of_length_eq_zero (Nat.le_zero.mp hl)
    simp [satoPaginate_nil]
  | succ n ih =>
    intro l hl
    cases l with
    | nil => simp [satoPaginate_nil]
    | cons a rest =>
      intro p hp
      rw [satoPaginate_cons hk] at hp
      rcases List.mem_cons.mp hp with hp | hp
      · subst hp
        obtain ⟨k', rfl⟩ := Nat.exists_eq_succ_of_ne_zero hk
        constructor
        · simpa using Nat.min_le_left (k' + 1) (rest.length + 1)
        · simp [List.take_cons_succ]
      · have hd : ((a :: rest).drop k).length ≤ n := by
          simp only [List.length_drop, List.length_cons]
          simp only [List.length_cons] at hl
          omega
        exact ih _ hd p hp

theorem satoPaginate_length_aux {α : Type} {k : ℕ} (hk : k ≠ 0) :
    ∀ (n : ℕ) (l : List α), l.length ≤ n → l ≠ [] →
      (satoPaginate k l).length = (l.length + k - 1) / k := by
  intro n
  induction n with
  | zero =>
    intro l hl hne
    exact absurd (List.eq_nil_of_length_eq_zero (Nat.le_zero.mp hl)) hne
  | succ n ih =>
    intro l hl hne
    cases l with
    | nil => exact absurd rfl hne
    | cons a rest =>
      rw [satoPaginate_cons hk]
      by_cases hrest : (a :: rest).length ≤ k
      · have hdrop : (a :: rest).drop k = [] := by
          apply List.drop_eq_nil_of_le
          exact hrest
        rw [hdrop, satoPaginate_nil]
        have h1 : 1 ≤ (a :: rest).length := by simp
        have hk1 : 1 ≤ k := Nat.one_le_iff_ne_zero.mpr hk
        simp only [List.length_cons, List.length_nil]
        rw [Nat.div_eq_of_lt_le] <;> simp only [List.length_cons] at hrest h1 ⊢ <;> omega
      · push_neg at hrest
        have hdne : (a :: rest).drop k ≠ [] := by
          simp only [ne_eq, List.drop_eq_nil_iff, not_le]
          simpa using hrest
        have hd : ((a :: rest).drop k).length ≤ n := by
          simp only [List.length_drop, List.length_cons]
          simp only [List.length_cons] at hl
          omega
        rw [List.length_cons, ih _ hd hdne]
        simp only [List.length_drop]
        have hklt : k < (a :: rest).length := hrest
        have h0k : 0 < k := Nat.pos_of_ne_zero hk
        have : (a :: rest).length - k + k - 1 = (a :: rest).length - 1 := by omega
        rw [this]
        have h2 : (a :: rest).length + k - 1 = ((a :: rest).length - 1) + k := by
          simp only [List.length_cons]; omega
        rw [h2, Nat.add_div_right _ h0k]

theorem satoPaginate_dropLast_aux {α : Type} {k : ℕ} (hk : k ≠ 0) :
    ∀ (n : ℕ) (l : List α), l.length ≤ n →
      ∀ p ∈ (satoPaginate k l).dropLast, p.length = k := by
  intro n
  induction n with
  | zero =>
    intro l hl
    obtain rfl : l = [] := List.eq_nil_of_length_eq_zero (Nat.le_zero.mp hl)
    simp [satoPaginate_nil]
  | succ n ih =>
    intro l hl
    cases l with
    | nil => simp [satoPaginate_nil]
    | cons a rest =>
      intro p hp
      rw [satoPaginate_cons hk] at hp
      by_cases hrest : (a :: rest).length ≤ k
      · have hdrop : (a :: rest).drop k = [] := List.drop_eq_nil_of_le hrest
        rw [hdrop, satoPaginate_nil] at hp
        simp at hp
      · push_neg at hrest
        have hdne : (a :: rest).drop k ≠ [] := by
          simp only [ne_eq, List.drop_eq_nil_iff, not_le]
          simpa using hrest
        obtain ⟨q, qs, hq⟩ : ∃ q qs, satoPaginate k ((a :: rest).drop k) = q :: qs := by
          rcases hqq : satoPaginate k ((a :: rest).drop k) with _ | ⟨q, qs⟩
          · rcases hdd : (a :: rest).drop k with _ | ⟨b, bs⟩
            · exact absurd hdd hdne
            · rw [hdd] at hqq
              exact absurd hqq (satoPaginate_ne_nil hk b bs)
          · exact ⟨q, qs, rfl⟩
        rw [hq, List.dropLast_cons₂] at hp
        rcases List.mem_cons.mp hp with hp | hp
        · subst hp
          rw [List.length_take]
          omega
        · have hd : ((a :: rest).drop k).length ≤ n := by
            simp only [List.length_drop, List.length_cons]
            simp only [List.length_cons] at hl
            omega
          have := ih _ hd p
          rw [hq] at this
          exact this hp

/-- Claim C2: PerRowPage (thermal/SATO) pagination.  For every non-empty
label sequence and `labelsPerRow = k ≥ 1`, the SATO branch partitions the
sequence in order into `⌈n/k⌉` pages; every page except possibly the last
holds exactly `k` labels, and every page is non-empty with at most `k`
labels. -/
theorem sato_pagination_spec {α : Type} (k : ℕ) (labels : List α)
    (hk : 1 ≤ k) (hne : labels ≠ []) :
    (satoPaginate k labels).flatten = labels ∧
    (satoPaginate k labels).length = (labels.length + k - 1) / k ∧
    (∀ p ∈ (satoPaginate k labels).dropLast, p.length = k) ∧
    (∀ p ∈ satoPaginate k labels, p.length ≤ k ∧ p ≠ []) := by
  have hk0 : k ≠ 0 := Nat.one_le_iff_ne_zero.mp hk
  exact ⟨satoPaginate_flatten_aux hk0 labels.length labels le_rfl,
    satoPaginate_length_aux hk0 labels.length labels le_rfl hne,
    satoPaginate_dropLast_aux hk0 labels.length labels le_rfl,
    satoPaginate_sizes_aux hk0 labels.length labels le_rfl⟩

/-- Witness for C2: `labelsPerRow = 4` with 10 labels gives 3 pages with
per-page counts `[4, 4, 2]`. -/
theorem sato_pagination_witness :
    (satoPaginate 4
        ["w1", "w2", "w3", "w4", "w5", "w6", "w7", "w8", "w9", "w10"]).length = 3 ∧
    (satoPaginate 4
        ["w1", "w2", "w3", "w4", "w5", "w6", "w7", "w8", "w9", "w10"]).map
        List.length = [4, 4, 2] := by
  have h := (sato_pagination_spec 4
    ["w1", "w2", "w3", "w4", "w5", "w6", "w7", "w8", "w9", "w10"]
    (by decide) (by decide)).2.1
  constructor
  · simpa using h
  · simp [satoPaginate_cons (by decide : (4 : ℕ) ≠ 0), satoPaginate_nil]

/-- One drawn label: its text and the `(x, y)` page coordinates in mm. -/
abbrev Placement : Type := String × ℚ × ℚ

/-- Text of each placement on one page. -/
def pageLabels (pg : List Placement) : List String := pg.map Prod.fst

/-- Office branch of `generate_bulk_labels_grouped`, lines 371-376: position of
the label placed while `labels_on_current_page = count`:
`current_row = count // labels_per_row`, `current_col = count % labels_per_row`,
`label_x = page_margin_left_mm + current_col * spacing_h`,
`label_y = page_margin_top_mm + current_row * spacing_v`. -/
def ggPlace (lpr : ℕ) (mt ml hs vs : ℚ) (w : String) (count : ℕ) : Placement :=
  (w, ml + ((count % lpr : ℕ) : ℚ) * hs, mt + ((count / lpr : ℕ) : ℚ) * vs)

/-- Office branch loop of `generate_bulk_labels_grouped`, lines 362-385: for
each label, if `labels_on_current_page >= max_labels_per_page` a new page is
opened and the counter reset before placing; then the label is placed and the
counter incremented.  The result is the pair of (placements appended to the
page open on entry, complete pages opened later). -/
def ggGo (lpr : ℕ) (m : ℤ) (mt ml hs vs : ℚ) :
    List String → ℕ → List Placement × List (List Placement)
  | [], _ => ([], [])
  | w :: rest, count =>
    if (count : ℤ) ≥ m then
      ([], (ggPlace lpr mt ml hs vs w 0 :: (ggGo lpr m mt ml hs vs rest 1).1) ::
        (ggGo lpr m mt ml hs vs rest 1).2)
    else
      (ggPlace lpr mt ml hs vs w count :: (ggGo lpr m mt ml hs vs rest (count + 1)).1,
        (ggGo lpr m mt ml hs vs rest (count + 1)).2)

/-- Pages produced by the office branch of `generate_bulk_labels_grouped`: the
source adds the first page before the loop (line 359), so the fragment still
open at the end heads the page list. -/
def groupedGridPlacements (lpr : ℕ) (m : ℤ) (mt ml hs vs : ℚ)
    (labels : List String) : List (List Placement) :=
  (ggGo lpr m mt ml hs vs labels 0).1 :: (ggGo lpr m mt ml hs vs labels 0).2

/-- Office branch, line 352: `available_height = page_height_mm - page_margin_top_mm`. -/
def groupedAvailableHeight (pageH mt : ℚ) : ℚ := pageH - mt

/-- Office branch, line 353:
`labels_per_column = max(1, int(available_height / label_spacing_vertical_mm))`. -/
def groupedLabelsPerColumn (ah vs : ℚ) : ℤ := max 1 (pyTrunc (ah / vs))

/-- Office branch, line 354: `max_labels_per_page = labels_per_row * labels_per_column`. -/
def groupedMaxLabelsPerPage (lpr : ℕ) (ah vs : ℚ) : ℤ :=
  (lpr : ℤ) * groupedLabelsPerColumn ah vs

/-- `generate_bulk_labels_full_page`, line 494:
`available_height = page_height_mm - page_margin_top_mm - 20`. -/
def fullPageAvailableHeight (pageH mt : ℚ) : ℚ := pageH - mt - 20

/-- `generate_bulk_labels_full_page`, line 495:
`labels_per_column = int(available_height / label_spacing_vertical_mm)` —
unlike the office branch there is no `max(1, ...)`. -/
def fullPageLabelsPerColumn (ah vs : ℚ) : ℤ := pyTrunc (ah / vs)

/-- `generate_bulk_labels_full_page`, line 496. -/
def fullPageMaxLabelsPerPage (lpr : ℕ) (ah vs : ℚ) : ℤ :=
  (lpr : ℤ) * fullPageLabelsPerColumn ah vs

/-- `generate_bulk_labels_full_page`, lines 507-517: the y-coordinate of a
label placed while `current_page_labels = count`: `row = count // labels_per_row`;
the first row is flush at `y = 0`, later rows at `row * vertical spacing`. -/
def fpY (lpr : ℕ) (vs : ℚ) (count : ℕ) : ℚ :=
  if count / lpr = 0 then 0 else ((count / lpr : ℕ) : ℚ) * vs

/-- `generate_bulk_labels_full_page`, lines 507-518: full placement of one
label (`label_x = page_margin_left_mm + col * spacing`). -/
def fpPlace (lpr : ℕ) (ml hs vs : ℚ) (w : String) (count : ℕ) : Placement :=
  (w, ml + ((count % lpr : ℕ) : ℚ) * hs, fpY lpr vs count)

/-- Loop of `generate_bulk_labels_full_page`, lines 501-528: a new page is
added whenever `current_page_labels == 0` at the top of the body; after
placing, the counter is incremented and reset to 0 once it reaches
`max_labels_per_page`.  The result is the pair of (placements appended to the
page open on entry, pages opened later). -/
def fpGo (lpr : ℕ) (m : ℤ) (ml hs vs : ℚ) :
    List String → ℕ → List Placement × List (List Placement)
  | [], _ => ([], [])
  | w :: rest, count =>
    if count = 0 then
      ([], (fpPlace lpr ml hs vs w count ::
          (fpGo lpr m ml hs vs rest (if (count : ℤ) + 1 ≥ m then 0 else count + 1)).1) ::
        (fpGo lpr m ml hs vs rest (if (count : ℤ) + 1 ≥ m then 0 else count + 1)).2)
    else
      (fpPlace lpr ml hs vs w count ::
          (fpGo lpr m ml hs vs rest (if (count : ℤ) + 1 ≥ m then 0 else count + 1)).1,
        (fpGo lpr m ml hs vs rest (if (count : ℤ) + 1 ≥ m then 0 else count + 1)).2)

/-- Pages produced by `generate_bulk_labels_full_page`: the loop opens pages
lazily (no page exists before the first label), so only the closed-page list
matters; the open fragment at entry count 0 is always empty. -/
def fullPagePlacements (lpr : ℕ) (m : ℤ) (ml hs vs : ℚ)
    (labels : List String) : List (List Placement) :=
  (fpGo lpr m ml hs vs labels 0).2

theorem fpGo_fst_nil (lpr : ℕ) (m : ℤ) (ml hs vs : ℚ) (labels : List String) :
    (fpGo lpr m ml hs vs labels 0).1 = [] := by
  cases labels <;> simp [fpGo]

theorem pageLabels_nil : pageLabels [] = [] := rfl

theorem pageLabels_cons (p : Placement) (ps : List Placement) :
    pageLabels (p :: ps) = p.1 :: pageLabels ps := rfl

theorem ggGo_cons_break (lpr : ℕ) (m : ℤ) (mt ml hs vs : ℚ) (w : String)
    (rest : List String) (count : ℕ) (h : (count : ℤ) ≥ m) :
    ggGo lpr m mt ml hs vs (w :: rest) count =
      ([], (ggPlace lpr mt ml hs vs w 0 :: (ggGo lpr m mt ml hs vs rest 1).1) ::
        (ggGo lpr m mt ml hs vs rest 1).2) := by
  simp [ggGo, h]

theorem ggGo_cons_cont (lpr : ℕ) (m : ℤ) (mt ml hs vs : ℚ) (w : String)
    (rest : List String) (count : ℕ) (h : (count : ℤ) < m) :
    ggGo lpr m mt ml hs vs (w :: rest) count =
      (ggPlace lpr mt ml hs vs w count :: (ggGo lpr m mt ml hs vs rest (count + 1)).1,
        (ggGo lpr m mt ml hs vs rest (count + 1)).2) := by
  simp [ggGo, not_le.mpr h]

theorem ggGo_spec (lpr : ℕ) (m : ℤ) (hm : 1 ≤ m) (mt ml hs vs : ℚ) :
    ∀ (labels : List String) (count : ℕ),
      ((count : ℤ) ≥ m →
        (ggGo lpr m mt ml hs vs labels count).1 = [] ∧
        ((ggGo lpr m mt ml hs vs labels count).2).map pageLabels =
          satoPaginate m.toNat labels) ∧
      ((count : ℤ) < m →
        pageLabels (ggGo lpr m mt ml hs vs labels count).1 =
          labels.take (m - count).toNat ∧
        ((ggGo lpr m mt ml hs vs labels count).2).map pageLabels =
          satoPaginate m.toNat (labels.drop (m - count).toNat)) := by
  have hm0 : m.toNat ≠ 0 := by omega
  intro labels
  induction labels with
  | nil =>
    intro count
    constructor <;> intro _ <;>
      simp [ggGo, satoPaginate_nil, pageLabels]
  | cons w rest ih =>
    intro count
    obtain ⟨K, hK⟩ : ∃ K, m.toNat = K + 1 := ⟨m.toNat - 1, by omega⟩
    constructor
    · intro hc
      rw [ggGo_cons_break lpr m mt ml hs vs w rest count hc]
      refine ⟨rfl, ?_⟩
      rw [satoPaginate_cons hm0, hK, List.take_succ_cons, List.drop_succ_cons,
        List.map_cons, pageLabels_cons]
      by_cases h1 : (1 : ℤ) ≥ m
      · have h1' := (ih 1).1 h1
        have hK0 : K = 0 := by omega
        have hm1 : m.toNat = 1 := by omega
        rw [h1'.1, h1'.2, hK0, hm1]
        simp [ggPlace, pageLabels]
      · push_neg at h1
        have h1' := (ih 1).2 h1
        simp only [Nat.cast_one] at h1'
        have hK1 : (m - 1).toNat = K := by omega
        rw [show (ggPlace lpr mt ml hs vs w 0).1 = w from rfl, h1'.1, h1'.2, hK1, hK]
    · intro hc
      rw [ggGo_cons_cont lpr m mt ml hs vs w rest count hc]
      obtain ⟨J, hJ⟩ : ∃ J, (m - count).toNat = J + 1 := ⟨(m - count).toNat - 1, by omega⟩
      rw [hJ]
      by_cases h1 : ((count : ℤ) + 1) ≥ m
      · have hJ0 : J = 0 := by omega
        have h1' := (ih (count + 1)).1 (by exact_mod_cast h1)
        constructor
        · rw [pageLabels_cons, show (ggPlace lpr mt ml hs vs w count).1 = w from rfl]
          rw [show pageLabels (ggGo lpr m mt ml hs vs rest (count + 1)).1 = [] from by
            rw [pageLabels, h1'.1]; rfl]
          rw [hJ0, List.take_succ_cons, List.take_zero]
        · rw [h1'.2, hJ0, List.drop_succ_cons, List.drop_zero]
      · push_neg at h1
        have h1' := (ih (count + 1)).2 (by exact_mod_cast h1)
        have hJ1 : (m - ((count : ℤ) + 1)).toNat = J := by omega
        constructor
        · rw [pageLabels_cons, show (ggPlace lpr mt ml hs vs w count).1 = w from rfl,
            List.take_succ_cons]
          rw [show pageLabels (ggGo lpr m mt ml hs vs rest (count + 1)).1 =
            rest.take J from by
              have h2 := h1'.1
              rw [show ((count + 1 : ℕ) : ℤ) = (count : ℤ) + 1 from by push_cast; ring] at h2
              rw [h2, hJ1]]
        · have h2 := h1'.2
          rw [show ((count + 1 : ℕ) : ℤ) = (count : ℤ) + 1 from by push_cast ; ring] at h2
          rw [h2, hJ1, List.drop_succ_cons]

theorem fpGo_cons (lpr : ℕ) (m : ℤ) (ml hs vs : ℚ) (w : String)
    (rest : List String) (count : ℕ) :
    fpGo lpr m ml hs vs (w :: rest) count =
      if count = 0 then
        ([], (fpPlace lpr ml hs vs w count ::
            (fpGo lpr m ml hs vs rest (if (count : ℤ) + 1 ≥ m then 0 else count + 1)).1) ::
          (fpGo lpr m ml hs vs rest (if (count : ℤ) + 1 ≥ m then 0 else count + 1)).2)
      else
        (fpPlace lpr ml hs vs w count ::
            (fpGo lpr m ml hs vs rest (if (count : ℤ) + 1 ≥ m then 0 else count + 1)).1,
          (fpGo lpr m ml hs vs rest (if (count : ℤ) + 1 ≥ m then 0 else count + 1)).2) := by
  rfl

theorem fpGo_y (lpr : ℕ) (m : ℤ) (ml hs vs : ℚ) :
    ∀ (labels : List String) (count : ℕ),
      (∀ j, j < (fpGo lpr m ml hs vs labels count).1.length →
        ((fpGo lpr m ml hs vs labels count).1.getD j ("", 0, 0)).2.2 =
          fpY lpr vs (count + j)) ∧
      (∀ pg ∈ (fpGo lpr m ml hs vs labels count).2, ∀ j, j < pg.length →
        (pg.getD j ("", 0, 0)).2.2 = fpY lpr vs j) := by
  intro labels
  induction labels with
  | nil =>
    intro count
    refine ⟨fun j hj => ?_, fun pg hpg => ?_⟩
    · simp [fpGo] at hj
    · simp [fpGo] at hpg
  | cons w rest ih =>
    intro count
    have hnext0 : ((if (count : ℤ) + 1 ≥ m then 0 else count + 1) = 0) ∨
        ((if (count : ℤ) + 1 ≥ m then 0 else count + 1) = count + 1) := by
      by_cases hm1 : (count : ℤ) + 1 ≥ m
      · exact Or.inl (if_pos hm1)
      · exact Or.inr (if_neg hm1)
    have key : ∀ j, j < (fpPlace lpr ml hs vs w count ::
        (fpGo lpr m ml hs vs rest (if (count : ℤ) + 1 ≥ m then 0 else count + 1)).1).length →
        ((fpPlace lpr ml hs vs w count ::
          (fpGo lpr m ml hs vs rest (if (count : ℤ) + 1 ≥ m then 0 else count + 1)).1).getD j
            ("", 0, 0)).2.2 = fpY lpr vs (count + j) := by
      intro j hj
      cases j with
      | zero => simp [fpPlace]
      | succ j' =>
        rw [List.getD_cons_succ]
        have hj' : j' < (fpGo lpr m ml hs vs rest
            (if (count : ℤ) + 1 ≥ m then 0 else count + 1)).1.length := by
          simpa using hj
        rcases hnext0 with h0 | h0
        · rw [h0, fpGo_fst_nil] at hj'
          simp at hj'
        · rw [h0] at hj' ⊢
          have hih := (ih (count + 1)).1 j' hj'
          rw [show count + 1 + j' = count + (j' + 1) from by omega] at hih
          exact hih
    by_cases hc : count = 0
    · subst hc
      rw [fpGo_cons, if_pos rfl]
      refine ⟨fun j hj => ?_, fun pg hpg j hj => ?_⟩
      · simp at hj
      · rcases List.mem_cons.mp hpg with hpg | hpg
        · subst hpg
          simpa using key j hj
        · exact (ih _).2 pg hpg j hj
    · rw [fpGo_cons, if_neg hc]
      refine ⟨fun j hj => ?_, fun pg hpg j hj => ?_⟩
      · exact key j hj
      · exact (ih _).2 pg hpg j hj

/-- Claim C3 (amended): GridPage pagination.  The office branch of
`generate_bulk_labels_grouped` computes `labelsPerColumn` as the truncated
quotient of available page height by vertical spacing with a minimum of 1,
sets `maxLabelsPerPage = labelsPerRow * labelsPerColumn`, and partitions a
non-empty label sequence in order into `⌈n / maxLabelsPerPage⌉` pages holding
exactly `maxLabelsPerPage` labels each except possibly the last (opening a new
page with a reset counter exactly when a page is full).
`generate_bulk_labels_full_page`, by contrast, applies no minimum of 1 to its
`labelsPerColumn`; see the counterexample against the original claim. -/
theorem grouped_grid_pagination (lpr : ℕ) (pageH mt ml hs vs : ℚ) (m : ℤ) (M : ℕ)
    (labels : List String) (hlpr : 1 ≤ lpr)
    (hm : m = groupedMaxLabelsPerPage lpr (groupedAvailableHeight pageH mt) vs)
    (hM : M = m.toNat) (hne : labels ≠ []) :
    1 ≤ groupedLabelsPerColumn (groupedAvailableHeight pageH mt) vs ∧
    (groupedGridPlacements lpr m mt ml hs vs labels).map pageLabels =
      satoPaginate M labels ∧
    ((groupedGridPlacements lpr m mt ml hs vs labels).map pageLabels).flatten =
      labels ∧
    (groupedGridPlacements lpr m mt ml hs vs labels).length =
      (labels.length + M - 1) / M ∧
    (∀ pg ∈ ((groupedGridPlacements lpr m mt ml hs vs labels).map pageLabels).dropLast,
      pg.length = M) ∧
    (∀ pg ∈ (groupedGridPlacements lpr m mt ml hs vs labels).map pageLabels,
      pg.length ≤ M ∧ pg ≠ []) := by
  have hcol : 1 ≤ groupedLabelsPerColumn (groupedAvailableHeight pageH mt) vs :=
    le_max_left 1 _
  have hm1 : 1 ≤ m := by
    rw [hm, groupedMaxLabelsPerPage]
    have h1 : (1 : ℤ) ≤ (lpr : ℤ) := by exact_mod_cast hlpr
    calc (1 : ℤ) = 1 * 1 := by ring
    _ ≤ (lpr : ℤ) * groupedLabelsPerColumn (groupedAvailableHeight pageH mt) vs :=
      mul_le_mul h1 hcol zero_le_one (by omega)
  have hM0 : M ≠ 0 := by omega
  have hMm : m.toNat = M := hM.symm
  have hgg := (ggGo_spec lpr m hm1 mt ml hs vs labels 0).2 (by push_cast; omega)
  simp only [Nat.cast_zero, sub_zero] at hgg
  have key : (groupedGridPlacements lpr m mt ml hs vs labels).map pageLabels =
      satoPaginate M labels := by
    rw [groupedGridPlacements, List.map_cons, hgg.1, hgg.2, hMm]
    cases labels with
    | nil => exact absurd rfl hne
    | cons a rest => rw [satoPaginate_cons hM0]
  refine ⟨hcol, key, ?_, ?_, ?_, ?_⟩
  · rw [key]
    exact satoPaginate_flatten_aux hM0 labels.length labels le_rfl
  · have hlen := congrArg List.length key
    rw [List.length_map] at hlen
    rw [hlen]
    exact satoPaginate_length_aux hM0 labels.length labels le_rfl hne
  · rw [key]
    exact satoPaginate_dropLast_aux hM0 labels.length labels le_rfl
  · rw [key]
    exact satoPaginate_sizes_aux hM0 labels.length labels le_rfl

/-- Counterexample for claim C3 as stated: `generate_bulk_labels_full_page`
computes `labels_per_column = int(available_height / spacing)` with no
minimum of 1.  With letter height 279.4 mm, top margin 15 mm and vertical
spacing 300 mm, `labels_per_column = 0`, so `max_labels_per_page = 0` and the
loop resets the page counter after every label: two labels produce the two
pages `[["A"], ["B"]]`, whereas the claimed `max(1, ...)` formula gives
`2 * 1 = 2` labels per page, i.e. the single page `[["A", "B"]]`. -/
theorem fullpage_labels_per_column_counterexample :
    fullPageLabelsPerColumn (fullPageAvailableHeight 279.4 15) 300 = 0 ∧
    (fullPagePlacements 2
        (fullPageMaxLabelsPerPage 2 (fullPageAvailableHeight 279.4 15) 300)
        15 25.4 300 ["A", "B"]).map pageLabels = [["A"], ["B"]] ∧
    ([["A"], ["B"]] : List (List String)) ≠ [["A", "B"]] := by
  have h0 : fullPageLabelsPerColumn (fullPageAvailableHeight 279.4 15) 300 = 0 := by
    norm_num [fullPageLabelsPerColumn, fullPageAvailableHeight, pyTrunc]
  refine ⟨h0, ?_, by decide⟩
  have hmz : fullPageMaxLabelsPerPage 2 (fullPageAvailableHeight 279.4 15) 300 = 0 := by
    rw [fullPageMaxLabelsPerPage, h0, mul_zero]
  rw [hmz]
  norm_num [fullPagePlacements, fpGo, fpPlace, pageLabels]

/-- Witness for C3: available height 100 mm and vertical spacing 30 mm give
`labelsPerColumn = max(1, 3) = 3`; with `labelsPerRow = 2` that is 6 labels
per page, and 13 labels paginate with counts `[6, 6, 1]`. -/
theorem grouped_grid_pagination_witness :
    ((groupedGridPlacements 2
        (groupedMaxLabelsPerPage 2 (groupedAvailableHeight 100 0) 30) 0 0 25.4 30
        ["a1", "a2", "a3", "a4", "a5", "a6", "a7", "a8", "a9", "a10", "a11",
          "a12", "a13"]).map pageLabels).map List.length = [6, 6, 1] := by
  have hm6 : groupedMaxLabelsPerPage 2 (groupedAvailableHeight 100 0) 30 = 6 := by
    norm_num [groupedMaxLabelsPerPage, groupedLabelsPerColumn,
      groupedAvailableHeight, pyTrunc]
  have h := (grouped_grid_pagination 2 100 0 0 25.4 30
      (groupedMaxLabelsPerPage 2 (groupedAvailableHeight 100 0) 30)
      (groupedMaxLabelsPerPage 2 (groupedAvailableHeight 100 0) 30).toNat
      ["a1", "a2", "a3", "a4", "a5", "a6", "a7", "a8", "a9", "a10", "a11",
        "a12", "a13"]
      (by norm_num) rfl rfl (by simp)).2.1
  rw [h]
  rw [show (groupedMaxLabelsPerPage 2 (groupedAvailableHeight 100 0) 30).toNat = 6 from by
    rw [hm6]
    rfl]
  simp [satoPaginate_cons (by norm_num : (6 : ℕ) ≠ 0), satoPaginate_nil]

/-- Claim C5 (amended): first-row-flush invariant.  Every label placed by
`generate_bulk_labels_full_page` at on-page index `j`, i.e. grid row
`r = j / labelsPerRow`, has y-coordinate exactly 0 when `r = 0` and exactly
`r * verticalSpacing` when `r > 0`, regardless of the configured top margin.
The office branch of `generate_bulk_labels_grouped` does NOT obey the
invariant: it places grid row `r` at `topMargin + r * verticalSpacing`, so
its first row sits at the configured top margin (10 in the instance below),
which differs from 0. -/
theorem first_row_flush (lpr : ℕ) (m : ℤ) (ml hs vs : ℚ) (labels : List String)
    (hlpr : 1 ≤ lpr) :
    (∀ pg ∈ fullPagePlacements lpr m ml hs vs labels, ∀ j, j < pg.length →
      (pg.getD j ("", 0, 0)).2.2 =
        if j / lpr = 0 then 0 else ((j / lpr : ℕ) : ℚ) * vs) ∧
    groupedGridPlacements 2 6 10 0 25.4 45.7 ["A"] = [[("A", 0, 10)]] ∧
    ((10 : ℚ) ≠ 0) := by
  refine ⟨?_, ?_, by norm_num⟩
  · intro pg hpg j hj
    have h := (fpGo_y lpr m ml hs vs labels 0).2 pg hpg j hj
    rw [h]
    rfl
  · norm_num [groupedGridPlacements, ggGo, ggPlace]

/-- Counterexample for claim C5 as stated: with a configured top margin of
10 mm, the office GridPage branch places its very first label (grid row 0)
at y = 10, not at y = 0. -/
theorem grouped_not_flush_counterexample :
    (((groupedGridPlacements 2 6 10 0 25.4 45.7 ["A"]).headD []).getD 0
      ("", 0, 0)).2.2 = 10 ∧ ((10 : ℚ) ≠ 0) := by
  constructor
  · norm_num [groupedGridPlacements, ggGo, ggPlace]
  · norm_num

/-- Witness for C5 at a concrete full-page job: with `labelsPerRow = 2` and
vertical spacing 45.7, the third label on the page (on-page index 2, grid
row 1) sits at y = 45.7. -/
theorem first_row_flush_witness :
    (((fullPagePlacements 2 6 0 25.4 45.7 ["A", "B", "C"]).headD []).getD 2
      ("", 0, 0)).2.2 = 45.7 := by
  have hfp : fullPagePlacements 2 6 0 25.4 45.7 ["A", "B", "C"] =
      [[("A", 0, 0), ("B", 25.4, 0), ("C", 0, 45.7)]] := by
    norm_num [fullPagePlacements, fpGo, fpPlace, fpY]
  have hmem : [("A", (0 : ℚ), (0 : ℚ)), ("B", 25.4, 0), ("C", 0, 45.7)] ∈
      fullPagePlacements 2 6 0 25.4 45.7 ["A", "B", "C"] := by
    rw [hfp]
    exact List.mem_singleton.mpr rfl
  have h := (first_row_flush 2 6 0 25.4 45.7 ["A", "B", "C"] (by norm_num)).1
    _ hmem 2 (by norm_num)
  rw [hfp]
  simpa using h

/-- Fit test inside the sizing loop of `calculate_optimal_font_size`
(lines 148-157): the measured text width fits the available width and the
estimated block height `line_height * lines_per_label` with
`line_height = size * 0.35` fits the available height. -/
def fontFits (measure : ℕ → ℚ) (aw ah : ℚ) (lines s : ℕ) : Prop :=
  measure s ≤ aw ∧ (s : ℚ) * 0.35 * (lines : ℚ) ≤ ah

instance (measure : ℕ → ℚ) (aw ah : ℚ) (lines s : ℕ) :
    Decidable (fontFits measure aw ah lines s) :=
  inferInstanceAs (Decidable (_ ∧ _))

/-- The `while test_size >= min_size` loop of `calculate_optimal_font_size`
(lines 139-165): descend from the start size one point at a time, returning
the first size that fits; on loop exit return `max(min_size, test_size)`.
`min_size = 4`; `max_size = 12` is assigned at line 142 but never used
afterwards, so the loop starts at the base size itself. -/
def fontLoop (measure : ℕ → ℚ) (aw ah : ℚ) (lines : ℕ) (t : ℕ) : ℕ :=
  if t < 4 then max 4 t
  else if fontFits measure aw ah lines t then t
  else fontLoop measure aw ah lines (t - 1)
  termination_by t
  decreasing_by omega

/-- `calculate_optimal_font_size` (lines 126-165): returns the base size
unchanged when auto-sizing is disabled, otherwise runs the descending loop
starting at the base size. -/
def calculate_optimal_font_size (autoSize : Bool) (measure : ℕ → ℚ)
    (aw ah : ℚ) (base lines : ℕ) : ℕ :=
  if autoSize then fontLoop measure aw ah lines base else base

theorem fontLoop_ge (measure : ℕ → ℚ) (aw ah : ℚ) (lines : ℕ) :
    ∀ t, 4 ≤ fontLoop measure aw ah lines t := by
  intro t
  induction t using Nat.strong_induction_on with
  | _ t ih =>
    rw [fontLoop]
    by_cases h1 : t < 4
    · rw [if_pos h1]
      omega
    · rw [if_neg h1]
      by_cases h2 : fontFits measure aw ah lines t
      · rw [if_pos h2]
        omega
      · rw [if_neg h2]
        exact ih (t - 1) (by omega)

theorem fontLoop_le (measure : ℕ → ℚ) (aw ah : ℚ) (lines : ℕ) :
    ∀ t, fontLoop measure aw ah lines t ≤ max 4 t := by
  intro t
  induction t using Nat.strong_induction_on with
  | _ t ih =>
    rw [fontLoop]
    by_cases h1 : t < 4
    · rw [if_pos h1]
    · rw [if_neg h1]
      by_cases h2 : fontFits measure aw ah lines t
      · rw [if_pos h2]
        omega
      · rw [if_neg h2]
        have := ih (t - 1) (by omega)
        omega

theorem fontLoop_max_fit (measure : ℕ → ℚ) (aw ah : ℚ) (lines : ℕ) :
    ∀ t s, 4 ≤ s → s ≤ t → fontFits measure aw ah lines s →
      fontFits measure aw ah lines (fontLoop measure aw ah lines t) ∧
      s ≤ fontLoop measure aw ah lines t ∧ fontLoop measure aw ah lines t ≤ t := by
  intro t
  induction t using Nat.strong_induction_on with
  | _ t ih =>
    intro s h4 hst hfit
    rw [fontLoop]
    have h1 : ¬ t < 4 := by omega
    rw [if_neg h1]
    by_cases h2 : fontFits measure aw ah lines t
    · rw [if_pos h2]
      exact ⟨h2, hst, le_rfl⟩
    · rw [if_neg h2]
      have hne : s ≠ t := fun h => h2 (h ▸ hfit)
      have hrec := ih (t - 1) (by omega) s h4 (by omega) hfit
      exact ⟨hrec.1, hrec.2.1, by omega⟩

theorem fontLoop_none (measure : ℕ → ℚ) (aw ah : ℚ) (lines : ℕ) :
    ∀ t, (∀ s, 4 ≤ s → s ≤ t → ¬ fontFits measure aw ah lines s) →
      fontLoop measure aw ah lines t = 4 := by
  intro t
  induction t using Nat.strong_induction_on with
  | _ t ih =>
    intro hnone
    rw [fontLoop]
    by_cases h1 : t < 4
    · rw [if_pos h1]
      omega
    · rw [if_neg h1]
      rw [if_neg (hnone t (by omega) le_rfl)]
      exact ih (t - 1) (by omega) fun s hs4 hst => hnone s hs4 (by omega)

/-- Claim C4 (amended): font auto-fit algorithm and bounds.  With auto-size
enabled, `calculate_optimal_font_size` descends in integer steps starting
from the base size itself — the assigned `max_size = 12` is dead code, so no
`min(baseSize, maxSize)` cap exists — returns the first (hence largest) size
in `[4, base]` whose measured width and estimated height
`0.35 * size * lines` fit, returns `min_size = 4` when no size fits, and the
result always lies in `[4, max 4 base]`, not in `[4, 12]`. -/
theorem calculate_optimal_font_size_spec (measure : ℕ → ℚ) (aw ah : ℚ)
    (base lines : ℕ) :
    (4 ≤ calculate_optimal_font_size true measure aw ah base lines ∧
      calculate_optimal_font_size true measure aw ah base lines ≤ max 4 base) ∧
    (∀ s, 4 ≤ s → s ≤ base → fontFits measure aw ah lines s →
      fontFits measure aw ah lines
        (calculate_optimal_font_size true measure aw ah base lines) ∧
      s ≤ calculate_optimal_font_size true measure aw ah base lines ∧
      calculate_optimal_font_size true measure aw ah base lines ≤ base) ∧
    ((∀ s, 4 ≤ s → s ≤ base → ¬ fontFits measure aw ah lines s) →
      calculate_optimal_font_size true measure aw ah base lines = 4) := by
  have hcal : calculate_optimal_font_size true measure aw ah base lines =
      fontLoop measure aw ah lines base := rfl
  rw [hcal]
  exact ⟨⟨fontLoop_ge measure aw ah lines base, fontLoop_le measure aw ah lines base⟩,
    fun s h4 hsb hfit => fontLoop_max_fit measure aw ah lines base s h4 hsb hfit,
    fontLoop_none measure aw ah lines base⟩

/-- Counterexample for claim C4 as stated: the sizing loop starts at the base
size without capping at `max_size = 12`.  With a backend measuring every
size at width 0, ample space, base size 20 and one line, the function
returns 20 — outside the claimed range `[minSize, maxSize] = [4, 12]`. -/
theorem calculate_optimal_font_size_counterexample :
    calculate_optimal_font_size true (fun _ => 0) 100 100 20 1 = 20 ∧
    ¬ (calculate_optimal_font_size true (fun _ => 0) 100 100 20 1 ≤ 12) := by
  have h : calculate_optimal_font_size true (fun _ => 0) 100 100 20 1 = 20 := by
    rw [calculate_optimal_font_size, if_pos rfl, fontLoop]
    rw [if_neg (by norm_num)]
    rw [if_pos (by constructor <;> norm_num)]
  exact ⟨h, by rw [h]; norm_num⟩

/-- Witness for C4 at a concrete sizing problem: with width measure 0, space
50 × 50, base 8 and 3 lines, size 8 fits, so the result fits, is at least 8,
and is at most `max 4 8`. -/
theorem calculate_optimal_font_size_spec_witness :
    fontFits (fun _ => (0 : ℚ)) 50 50 3
      (calculate_optimal_font_size true (fun _ => (0 : ℚ)) 50 50 8 3) ∧
    8 ≤ calculate_optimal_font_size true (fun _ => (0 : ℚ)) 50 50 8 3 ∧
    calculate_optimal_font_size true (fun _ => (0 : ℚ)) 50 50 8 3 ≤ max 4 8 := by
  have h := calculate_optimal_font_size_spec (fun _ => (0 : ℚ)) 50 50 8 3
  have hfit8 : fontFits (fun _ => (0 : ℚ)) 50 50 3 8 := by
    constructor <;> norm_num
  have hf := h.2.1 8 (by norm_num) le_rfl hfit8
  exact ⟨hf.1, hf.2.1, h.1.2⟩

/-- Claim C9: with a text-width measure that is monotone non-decreasing in
the font size, auto-fit returns the maximum fitting size of the searched
range `[minSize, base] = [4, base]`, and every size of the range below the
returned one also fits. -/
theorem autofit_monotone_max (measure : ℕ → ℚ) (aw ah : ℚ) (base lines : ℕ)
    (hmono : ∀ a b : ℕ, a ≤ b → measure a ≤ measure b)
    (hex : ∃ s, 4 ≤ s ∧ s ≤ base ∧ fontFits measure aw ah lines s) :
    fontFits measure aw ah lines
      (calculate_optimal_font_size true measure aw ah base lines) ∧
    4 ≤ calculate_optimal_font_size true measure aw ah base lines ∧
    calculate_optimal_font_size true measure aw ah base lines ≤ base ∧
    (∀ s, 4 ≤ s → s ≤ base → fontFits measure aw ah lines s →
      s ≤ calculate_optimal_font_size true measure aw ah base lines) ∧
    (∀ s, 4 ≤ s → s ≤ calculate_optimal_font_size true measure aw ah base lines →
      fontFits measure aw ah lines s) := by
  obtain ⟨s₀, h4, hsb, hfit⟩ := hex
  have hcal : calculate_optimal_font_size true measure aw ah base lines =
      fontLoop measure aw ah lines base := rfl
  have hmax := fontLoop_max_fit measure aw ah lines base s₀ h4 hsb hfit
  rw [hcal]
  refine ⟨hmax.1, fontLoop_ge measure aw ah lines base, hmax.2.2, ?_, ?_⟩
  · intro s hs4 hsb' hfits
    exact (fontLoop_max_fit measure aw ah lines base s hs4 hsb' hfits).2.1
  · intro s hs4 hsr
    have hw : measure s ≤ measure (fontLoop measure aw ah lines base) := hmono s _ hsr
    have hcast : (s : ℚ) ≤ ((fontLoop measure aw ah lines base : ℕ) : ℚ) := by
      exact_mod_cast hsr
    have hh : (s : ℚ) * 0.35 * (lines : ℚ) ≤
        ((fontLoop measure aw ah lines base : ℕ) : ℚ) * 0.35 * (lines : ℚ) := by
      have h35 : (s : ℚ) * 0.35 ≤ ((fontLoop measure aw ah lines base : ℕ) : ℚ) * 0.35 :=
        mul_le_mul_of_nonneg_right hcast (by norm_num)
      exact mul_le_mul_of_nonneg_right h35 (by positivity)
    exact ⟨le_trans hw hmax.1.1, le_trans hh hmax.1.2⟩

/-- Witness for C9: with the monotone measure `size ↦ size` mm, width 10 mm,
height 100 mm, base 8 and one line, every size up to 8 fits and the maximum
fitting size 8 is returned. -/
theorem autofit_monotone_max_witness :
    calculate_optimal_font_size true (fun s => (s : ℚ)) 10 100 8 1 = 8 ∧
    fontFits (fun s => (s : ℚ)) 10 100 1 8 := by
  have hfit8 : fontFits (fun s => (s : ℚ)) 10 100 1 8 := by
    constructor <;> norm_num
  have h := autofit_monotone_max (fun s => (s : ℚ)) 10 100 8 1
    (fun a b hab => by
      show (a : ℚ) ≤ (b : ℚ)
      exact_mod_cast hab) ⟨8, by norm_num, le_rfl, hfit8⟩
  exact ⟨le_antisymm h.2.2.1 (h.2.2.2.1 8 (by norm_num) le_rfl hfit8), hfit8⟩

/-- Font-size selection of `_draw_label_at_position` (lines 676-697): with
auto-size on, delegate to `calculate_optimal_font_size`; with auto-size off,
the SATO branch uses the exact configured size, the Brother branch clamps to
`[8, 14]`, the generic thermal branch clamps to `[6, 12]`, and otherwise the
exact size is used. -/
def dlapFontSize (autoSize satoOpt brotherOpt thermalOpt : Bool)
    (measure : ℕ → ℚ) (aw ah : ℚ) (baseSize lines : ℕ) : ℕ :=
  if autoSize then calculate_optimal_font_size true measure aw ah baseSize lines
  else if satoOpt then baseSize
  else if brotherOpt then min 14 (max 8 baseSize)
  else if thermalOpt then min 12 (max 6 baseSize)
  else baseSize

/-- Claim C8 (amended): thermal-variant font clamping with auto-size
disabled.  In `_draw_label_at_position`, the Brother branch clamps the
requested size to `[8, 14]` and the generic thermal branch clamps to
`[6, 12]`, but the SATO branch — the primary thermal path, matching
`generate_label` and `_draw_sato_optimized_label` — uses the caller's exact
size with no clamping at all. -/
theorem dlap_font_clamp (measure : ℕ → ℚ) (aw ah : ℚ) (fs lines : ℕ) :
    dlapFontSize false true false false measure aw ah fs lines = fs ∧
    dlapFontSize false false true false measure aw ah fs lines =
      min 14 (max 8 fs) ∧
    8 ≤ dlapFontSize false false true false measure aw ah fs lines ∧
    dlapFontSize false false true false measure aw ah fs lines ≤ 14 ∧
    dlapFontSize false false false true measure aw ah fs lines =
      min 12 (max 6 fs) ∧
    6 ≤ dlapFontSize false false false true measure aw ah fs lines ∧
    dlapFontSize false false false true measure aw ah fs lines ≤ 12 := by
  refine ⟨rfl, rfl, ?_, ?_, rfl, ?_, ?_⟩ <;> simp [dlapFontSize] <;> omega

/-- Counterexample for claim C8 as stated: under the SATO thermal variant
with auto-size disabled and requested size 20, `_draw_label_at_position`
uses exactly 20, which lies outside the claimed SATO operational range
`[6, 12]` (and outside `[8, 14]`). -/
theorem dlap_sato_unclamped_counterexample :
    dlapFontSize false true false false (fun _ => 0) 0 0 20 3 = 20 ∧
    ¬ (dlapFontSize false true false false (fun _ => 0) 0 0 20 3 ≤ 12) := by
  refine ⟨rfl, ?_⟩
  simp [dlapFontSize]

/-- Geometry fields of a `WireLabelGenerator` instance (constructor lines
87-110), already converted to millimetres. -/
structure WireLabelConfig where
  label_width_mm : ℚ
  label_height_mm : ℚ
  margin_top_mm : ℚ
  margin_right_mm : ℚ
  margin_bottom_mm : ℚ
  margin_left_mm : ℚ

/-- A `for i in range(n)` loop that draws one text line per iteration via
`pdf.text(start_x, start_y + i*line_spacing + off, ...)`; `off` is the
baseline offset (`+ 1.0` in `generate_label` and `_draw_label_at_position`,
`0` in `_draw_sato_optimized_label`).  Records the coordinates of each
`pdf.text` call. -/
def drawLinesFrom (sX sY spacing off : ℚ) : ℕ → ℕ → List (ℚ × ℚ)
  | _, 0 => []
  | i, n + 1 =>
    (sX, sY + (i : ℚ) * spacing + off) :: drawLinesFrom sX sY spacing off (i + 1) n

theorem drawLinesFrom_succ (sX sY spacing off : ℚ) (i n : ℕ) :
    drawLinesFrom sX sY spacing off i (n + 1) =
      (sX, sY + (i : ℚ) * spacing + off) ::
        drawLinesFrom sX sY spacing off (i + 1) n := rfl

theorem drawLinesFrom_eq (sX sY spacing off : ℚ) :
    ∀ (n i : ℕ), drawLinesFrom sX sY spacing off i n =
      (List.range n).map fun j => (sX, sY + ((i + j : ℕ) : ℚ) * spacing + off) := by
  intro n
  induction n with
  | zero =>
    intro i
    simp [drawLinesFrom]
  | succ n ih =>
    intro i
    rw [drawLinesFrom_succ, ih (i + 1), List.range_succ_eq_map, List.map_cons,
      List.map_map]
    refine List.cons_eq_cons.mpr ⟨by norm_num, ?_⟩
    refine List.map_congr_left fun j _ => ?_
    have hij : i + 1 + j = i + (j + 1) := by omega
    simp [Function.comp, hij]

/-- `generate_label` (lines 212-223): `start_x = 0.0`, `start_y = 2.0`,
`line_spacing = 3.5`, all fixed; the baseline offset of the `pdf.text` call
is `+ 1.0`.  The configured margins play no role. -/
def generateLabelTextLines (_cfg : WireLabelConfig) (n : ℕ) : List (ℚ × ℚ) :=
  drawLinesFrom 0 2 3.5 1 0 n

/-- SATO branch of `_draw_label_at_position` (lines 704-714):
`start_x = x + 0.0`, `start_y = y + margin_top_mm` (the configured top
margin), spacing fixed at `3.5`, baseline offset `+ 1.0`. -/
def dlapSatoTextLines (cfg : WireLabelConfig) (x y : ℚ) (n : ℕ) : List (ℚ × ℚ) :=
  drawLinesFrom (x + 0) (y + cfg.margin_top_mm) 3.5 1 0 n

/-- Line spacing computed by `_draw_sato_optimized_label` (lines 420-422):
`available_height / max(lines, 1)` when more than one line is requested,
else `available_height * 0.8`. -/
def satoLineSpacing (cfg : WireLabelConfig) (n : ℕ) : ℚ :=
  if 1 < n then
    (cfg.label_height_mm - cfg.margin_top_mm - cfg.margin_bottom_mm) / ((max n 1 : ℕ) : ℚ)
  else (cfg.label_height_mm - cfg.margin_top_mm - cfg.margin_bottom_mm) * 0.8

/-- Drawing loop of `_draw_sato_optimized_label` (lines 443-458): each
iteration computes `y_position = start_y + i * line_spacing` and `break`s
out of the loop when `y_position + line_spacing` exceeds
`y_pos + label_height_mm - margin_bottom_mm`; otherwise it draws via
`pdf.text(start_x, y_position, ...)` (no baseline offset here). -/
def satoLineLoop (sX sY spacing limit : ℚ) : ℕ → ℕ → List (ℚ × ℚ)
  | _, 0 => []
  | i, n + 1 =>
    if limit < sY + (i : ℚ) * spacing + spacing then []
    else (sX, sY + (i : ℚ) * spacing) :: satoLineLoop sX sY spacing limit (i + 1) n

theorem satoLineLoop_succ (sX sY spacing limit : ℚ) (i n : ℕ) :
    satoLineLoop sX sY spacing limit i (n + 1) =
      if limit < sY + (i : ℚ) * spacing + spacing then []
      else (sX, sY + (i : ℚ) * spacing) ::
        satoLineLoop sX sY spacing limit (i + 1) n := rfl

/-- `_draw_sato_optimized_label` (lines 413-458): text starts at the
configured margins (`start_x = x + margin_left_mm`,
`start_y = y + margin_top_mm`), uses `satoLineSpacing`, and truncates at the
label's bottom boundary. -/
def satoOptimizedTextLines (cfg : WireLabelConfig) (x y : ℚ) (n : ℕ) :
    List (ℚ × ℚ) :=
  satoLineLoop (x + cfg.margin_left_mm) (y + cfg.margin_top_mm)
    (satoLineSpacing cfg n) (y + cfg.label_height_mm - cfg.margin_bottom_mm) 0 n

theorem length_takeWhile_aux {α : Type} (p : α → Bool) :
    ∀ l : List α, (l.takeWhile p).length ≤ l.length := by
  intro l
  induction l with
  | nil => simp
  | cons a l ih =>
    rw [List.takeWhile_cons]
    by_cases h : p a
    · rw [if_pos h]
      simpa using Nat.succ_le_succ ih
    · rw [if_neg h]
      simp

theorem satoLineLoop_eq (sX sY spacing limit : ℚ) :
    ∀ (n i : ℕ), satoLineLoop sX sY spacing limit i n =
      (((List.range n).map (fun j => i + j)).takeWhile
          (fun (j : ℕ) => decide (sY + (j : ℚ) * spacing + spacing ≤ limit))).map
        (fun (j : ℕ) => (sX, sY + (j : ℚ) * spacing)) := by
  intro n
  induction n with
  | zero =>
    intro i
    simp [satoLineLoop]
  | succ n ih =>
    intro i
    rw [satoLineLoop_succ, List.range_succ_eq_map, List.map_cons, List.map_map]
    have hcomp : (List.range n).map ((fun j => i + j) ∘ Nat.succ) =
        (List.range n).map (fun j => (i + 1) + j) := by
      refine List.map_congr_left fun j _ => ?_
      simp only [Function.comp_apply]
      omega
    rw [hcomp, List.takeWhile_cons]
    by_cases hlt : limit < sY + ((i + 0 : ℕ) : ℚ) * spacing + spacing
    · rw [if_pos (by simpa using hlt)]
      rw [if_neg (by simpa using not_le.mpr hlt)]
      simp
    · rw [if_neg (by simpa using hlt)]
      push_neg at hlt
      rw [if_pos (by simpa using hlt)]
      rw [List.map_cons, ih (i + 1)]
      refine List.cons_eq_cons.mpr ⟨by norm_num, rfl⟩

/-- Claim C10: `_draw_sato_optimized_label` silently truncates overflowing
lines.  The drawn text lines are exactly the prefix of indices
`i ∈ [0, lines_per_label)` satisfying
`start_y + i*line_spacing + line_spacing ≤ y + label_height - bottom_margin`:
the first index failing the bound and all later ones are skipped, so at most
`lines_per_label` lines are drawn. -/
theorem sato_truncation_spec (cfg : WireLabelConfig) (x y : ℚ) (n : ℕ) :
    satoOptimizedTextLines cfg x y n =
      (((List.range n).takeWhile (fun (i : ℕ) => decide
          ((y + cfg.margin_top_mm) + (i : ℚ) * satoLineSpacing cfg n +
            satoLineSpacing cfg n ≤
              y + cfg.label_height_mm - cfg.margin_bottom_mm))).map
        (fun (i : ℕ) => (x + cfg.margin_left_mm,
          (y + cfg.margin_top_mm) + (i : ℚ) * satoLineSpacing cfg n))) ∧
    (satoOptimizedTextLines cfg x y n).length ≤ n := by
  have hid : (List.range n).map (fun j => 0 + j) = List.range n := by
    simp
  have h := satoLineLoop_eq (x + cfg.margin_left_mm) (y + cfg.margin_top_mm)
    (satoLineSpacing cfg n) (y + cfg.label_height_mm - cfg.margin_bottom_mm) n 0
  rw [hid] at h
  constructor
  · exact h
  · rw [satoOptimizedTextLines, h, List.length_map]
    calc ((List.range n).takeWhile _).length ≤ (List.range n).length :=
      length_takeWhile_aux _ _
    _ = n := List.length_range n

/-- Claim C6 (amended): thermal-variant positioning.  `generate_label` draws
at the fixed offsets 0 mm horizontal / 2 mm vertical (plus the 1 mm baseline
offset of its `pdf.text` call) with fixed 3.5 mm spacing, independently of
the configured margins.  The SATO branch of `_draw_label_at_position` keeps
the 0 mm horizontal offset and the 3.5 mm spacing but starts vertically at
the configured top margin, not at the fixed 2 mm.
`_draw_sato_optimized_label` starts at the configured left and top margins
and uses a spacing derived from the label height, not the fixed 3.5 mm. -/
theorem thermal_positioning_spec (cfg : WireLabelConfig) (x y : ℚ) (n : ℕ) :
    generateLabelTextLines cfg n =
      (List.range n).map (fun (i : ℕ) => ((0 : ℚ), 2 + (i : ℚ) * 3.5 + 1)) ∧
    dlapSatoTextLines cfg x y n =
      (List.range n).map
        (fun (i : ℕ) => (x + 0, (y + cfg.margin_top_mm) + (i : ℚ) * 3.5 + 1)) ∧
    (satoOptimizedTextLines cfg x y n ≠ [] →
      (satoOptimizedTextLines cfg x y n).headD (0, 0) =
        (x + cfg.margin_left_mm, y + cfg.margin_top_mm)) := by
  refine ⟨?_, ?_, ?_⟩
  · rw [generateLabelTextLines, drawLinesFrom_eq]
    simp
  · rw [dlapSatoTextLines, drawLinesFrom_eq]
    simp
  · intro hne
    rw [satoOptimizedTextLines] at hne ⊢
    cases n with
    | zero => exact absurd rfl hne
    | succ n =>
      rw [satoLineLoop_succ] at hne ⊢
      by_cases hlt : y + cfg.label_height_mm - cfg.margin_bottom_mm <
          (y + cfg.margin_top_mm) + ((0 : ℕ) : ℚ) * satoLineSpacing cfg (n + 1) +
            satoLineSpacing cfg (n + 1)
      · rw [if_pos hlt] at hne
        exact absurd rfl hne
      · rw [if_neg hlt]
        simp

/-- Counterexample for claim C6 as stated: `_draw_sato_optimized_label` with
label height 20 mm, top margin 5 mm, bottom margin 0, left margin 1 mm and 2
lines draws at `[(1, 5), (1, 12.5)]` — a 5 mm vertical start taken from the
margin and a 7.5 mm spacing derived from the height — not at the claimed
fixed offsets `[(0, 2), (0, 5.5)]` (0 mm horizontal, 2 mm vertical, 3.5 mm
spacing). -/
theorem sato_margin_positioning_counterexample :
    satoOptimizedTextLines ⟨76.2, 20, 5, 0, 0, 1⟩ 0 0 2 = [(1, 5), (1, 12.5)] ∧
    ([(1, 5), (1, 12.5)] : List (ℚ × ℚ)) ≠ [(0, 2), (0, 5.5)] := by
  constructor
  · rw [satoOptimizedTextLines]
    have hsp : satoLineSpacing ⟨76.2, 20, 5, 0, 0, 1⟩ 2 = 7.5 := by
      norm_num [satoLineSpacing]
    rw [hsp]
    rw [satoLineLoop_succ, if_neg (by norm_num)]
    rw [satoLineLoop_succ, if_neg (by norm_num)]
    norm_num [satoLineLoop]
  · intro h
    have := congrArg (fun l => (l.headD (0, 0)).2) h
    norm_num at this

/-- Witness for C6: with label height 15 mm, margins top 2 mm / bottom 1 mm /
left 0, a single line fits, and the first drawn line of
`_draw_sato_optimized_label` starts at the configured margins `(0, 2)`. -/
theorem thermal_positioning_spec_witness :
    satoOptimizedTextLines ⟨76.2, 15, 2, 0, 1, 0⟩ 0 0 1 ≠ [] ∧
    (satoOptimizedTextLines ⟨76.2, 15, 2, 0, 1, 0⟩ 0 0 1).headD (0, 0) = (0, 2) := by
  have hne : satoOptimizedTextLines ⟨76.2, 15, 2, 0, 1, 0⟩ 0 0 1 ≠ [] := by
    rw [satoOptimizedTextLines, satoLineLoop_succ, if_neg (by norm_num [satoLineSpacing])]
    simp
  have h := (thermal_positioning_spec ⟨76.2, 15, 2, 0, 1, 0⟩ 0 0 1).2.2 hne
  refine ⟨hne, ?_⟩
  rw [h]
  norm_num

/-- Result value of `generate_bulk_labels_grouped` (lines 387-411): either a
boolean file-write outcome or a byte buffer. -/
inductive GroupedOutput : Type
  | toFile : Bool → GroupedOutput
  | toBuffer : List ℕ → GroupedOutput
deriving DecidableEq

/-- Return path of `generate_bulk_labels_grouped` (lines 387-411): on
success, write the file and return `True`, or return the serialized bytes as
a buffer; in the `except` handler (lines 402-411) return `False` in
file-output mode but `io.BytesIO()` — an empty buffer — in buffer mode
(source comment at line 410: `# Return empty buffer on error`). -/
def groupedReturnPath (outputToFile : Bool) (errored : Bool)
    (pdfBytes : List ℕ) : GroupedOutput :=
  if errored then
    if outputToFile then GroupedOutput.toFile false else GroupedOutput.toBuffer []
  else
    if outputToFile then GroupedOutput.toFile true else GroupedOutput.toBuffer pdfBytes

/-- Claim C7 (amended): error surfacing of `generate_bulk_labels_grouped`.
In file-output mode a failure surfaces as `False`, distinct from every
success value; but in buffer mode a failure returns an *empty buffer* — the
very value a successful run that serialized an empty document returns — so
the failure is not distinguishable from a normal-looking document. -/
theorem grouped_error_surfacing (pdfBytes : List ℕ) :
    (∀ b : List ℕ,
      groupedReturnPath true true pdfBytes ≠ groupedReturnPath true false b) ∧
    groupedReturnPath false true pdfBytes = GroupedOutput.toBuffer [] ∧
    groupedReturnPath false false [] = GroupedOutput.toBuffer [] := by
  refine ⟨fun b => ?_, rfl, rfl⟩
  simp [groupedReturnPath]

/-- Counterexample for claim C7 as stated: in buffer mode, an error during
bulk generation makes `generate_bulk_labels_grouped` return `io.BytesIO()`
— the empty buffer — which equals the return value of a successful run with
an empty serialized document: the failure is returned as a normal-looking
empty document rather than surfaced. -/
theorem grouped_empty_buffer_counterexample :
    groupedReturnPath false true [7, 7, 7] = GroupedOutput.toBuffer [] ∧
    groupedReturnPath false true [7, 7, 7] = groupedReturnPath false false [] := by
  exact ⟨rfl, rfl⟩

/-- Witness for C7: the file-output mode of the amended claim at concrete
bytes. -/
theorem grouped_error_surfacing_witness :
    groupedReturnPath true true [1, 2] ≠ groupedReturnPath true false [1, 2] :=
  (grouped_error_surfacing [1, 2]).1 [1, 2]

end WireLabel
